import Mathlib

/-!
# Verification of the WxDatViewer decryption core

A shallow embedding of the DAT-file format-detection and decryption pipeline
(`src-tauri/src/decrypt/{version,v3,v4,aes,mod,error}.rs`).

Modelling conventions:
* A byte is a `Nat` (values below 256 in every real trace); a file or buffer
  is a `List Nat`.  A file stream is modelled by the full file contents plus
  an explicit read position; `read_exact n` succeeds exactly when `n` bytes
  remain from the current position.
* Fallible Rust functions returning `Result<_, DecryptError>` become
  `Except DecryptError _`.  The v4 path additionally contains an unchecked
  `u64` subtraction (`file_len - current_pos - xor_size`) that panics in a
  debug build and, in a release build, wraps and then aborts on a huge
  `vec![0u8; raw_len]` allocation; file-level operations therefore return
  `DResult`, which has an explicit `panic` outcome for that arithmetic
  underflow.
* The AES-128 block primitive lives in an external crate, outside this
  repository; it is abstracted as a block-transform parameter
  `decB : List Nat → List Nat` (the keyed `cipher.decrypt_block`).  Rust's
  `decrypt_block` rewrites a 16-byte array in place, so every instantiation
  maps 16-byte blocks to 16-byte blocks; theorems that need this state it as
  a hypothesis.
-/

/-- Bytes and byte buffers. -/
abbrev Bytes := List Nat

instance {ε α : Type} [DecidableEq ε] [DecidableEq α] :
    DecidableEq (Except ε α) := fun a b =>
  match a, b with
  | Except.ok x, Except.ok y =>
    if h : x = y then isTrue (by rw [h]) else isFalse (by simp [h])
  | Except.error x, Except.error y =>
    if h : x = y then isTrue (by rw [h]) else isFalse (by simp [h])
  | Except.ok _, Except.error _ => isFalse (by simp)
  | Except.error _, Except.ok _ => isFalse (by simp)

/-- Mirror of `enum DecryptError` in `decrypt/error.rs`. -/
inductive DecryptError where
  | IoError (msg : String)
  | InvalidFormat
  | AesDecryptError (msg : String)
  | UnsupportedVersion
  | HeaderParseError
deriving DecidableEq, Repr

/-- `true` exactly on the `AesDecryptError` variant: the discriminant test
used to compare error kinds. -/
def DecryptError.isAesDecryptError : DecryptError → Bool
  | .AesDecryptError _ => true
  | _ => false

/-- Outcome of a file-level decrypt call: a normal `Result` value, or a
process-level panic/abort caused by unchecked arithmetic. -/
inductive DResult where
  | ok (bs : Bytes)
  | err (e : DecryptError)
  | panic (msg : String)
deriving DecidableEq, Repr

/-- The message `std::io::Read::read_exact` reports on a short read
(`ErrorKind::UnexpectedEof`), carried into `DecryptError::IoError` by the
`From<std::io::Error>` impl. -/
def readExactEofMsg : String := "failed to fill whole buffer"

/-- Mirror of `enum DatVersion` in `decrypt/version.rs`. -/
inductive DatVersion where
  | V3
  | V4V1
  | V4V2
  | Unknown
deriving DecidableEq, Repr

namespace VersionDetector

/-- `VersionDetector::V4_V1_SIGNATURE = b"\x07\x08V1\x08\x07"`. -/
def V4_V1_SIGNATURE : Bytes := [7, 8, 86, 49, 8, 7]

/-- `VersionDetector::V4_V2_SIGNATURE = b"\x07\x08V2\x08\x07"`. -/
def V4_V2_SIGNATURE : Bytes := [7, 8, 86, 50, 8, 7]

/-- Mirror of `VersionDetector::detect`: read 6 bytes (a short read yields
`V3`), then compare against the two container signatures. -/
def detect (file : Bytes) : DatVersion :=
  if file.length < 6 then DatVersion.V3
  else if file.take 6 = V4_V1_SIGNATURE then DatVersion.V4V1
  else if file.take 6 = V4_V2_SIGNATURE then DatVersion.V4V2
  else DatVersion.V3

end VersionDetector

namespace V3Decryptor

/-- Mirror of `V3Decryptor::xor_decrypt`: `data.iter().map(|&b| b ^ key)`. -/
def xor_decrypt (data : Bytes) (key : Nat) : Bytes :=
  data.map (fun b => b ^^^ key)

/-- Mirror of `V3Decryptor::decrypt`: read the whole file and XOR it. -/
def decrypt (file : Bytes) (xor_key : Nat) : DResult :=
  DResult.ok (xor_decrypt file xor_key)

end V3Decryptor

namespace AesHandler

/-- `AesHandler::BLOCK_SIZE`. -/
def BLOCK_SIZE : Nat := 16

/-- Mirror of `AesHandler::align_size`: `size + (BLOCK_SIZE - size % BLOCK_SIZE)`.
The only call site feeds it `header.aes_size as usize` with `aes_size : u32`,
so the `usize` addition never overflows and plain `Nat` arithmetic is exact. -/
def align_size (size : Nat) : Nat :=
  size + (BLOCK_SIZE - size % BLOCK_SIZE)

/-- Mirror of `AesHandler::pkcs7_unpad` (operating on an owned buffer instead
of `&mut Vec<u8>`): read the last byte as the padding length, validate it,
and truncate. -/
def pkcs7_unpad (data : Bytes) : Except DecryptError Bytes :=
  if data.isEmpty then
    Except.error (DecryptError.AesDecryptError "数据为空")
  else
    let padding_len := data.getLastD 0
    if padding_len = 0 ∨ padding_len > BLOCK_SIZE ∨ padding_len > data.length then
      Except.error (DecryptError.AesDecryptError "无效的填充")
    else
      let start := data.length - padding_len
      if (data.drop start).all (fun b => b == padding_len) then
        Except.ok (data.take start)
      else
        Except.error (DecryptError.AesDecryptError "填充验证失败")

/-- Mirror of the `chunks_exact_mut(BLOCK_SIZE)` loop in
`AesHandler::decrypt_ecb` (with `BLOCK_SIZE = 16` unfolded into the match
pattern): each complete 16-byte chunk is replaced by its block decryption; a
trailing remainder shorter than 16 bytes is left untouched. -/
def ecbBlocks (decB : Bytes → Bytes) : Bytes → Bytes
  | b0 :: b1 :: b2 :: b3 :: b4 :: b5 :: b6 :: b7 ::
      b8 :: b9 :: b10 :: b11 :: b12 :: b13 :: b14 :: b15 :: rest =>
    decB [b0, b1, b2, b3, b4, b5, b6, b7, b8, b9, b10, b11, b12, b13, b14, b15]
      ++ ecbBlocks decB rest
  | data => data

/-- Mirror of `AesHandler::decrypt_ecb`: reject a non-16-byte key, decrypt
every complete block in place, then remove PKCS#7 padding.
(`Aes128::new_from_slice` can only fail on a wrong key length, which the
first check already excludes.) -/
def decrypt_ecb (decB : Bytes → Bytes) (data : Bytes) (key : Bytes) :
    Except DecryptError Bytes :=
  if key.length ≠ 16 then
    Except.error (DecryptError.AesDecryptError "AES 密钥必须为 16 字节")
  else
    pkcs7_unpad (ecbBlocks decB data)

end AesHandler

/-- Mirror of `struct V4Header` in `decrypt/v4.rs`. -/
structure V4Header where
  signature : Bytes
  aes_size : Nat
  xor_size : Nat
deriving DecidableEq, Repr

namespace V4Header

/-- `V4Header::SIZE`. -/
def SIZE : Nat := 15

/-- `u32::from_le_bytes` on four bytes. -/
def u32le (b0 b1 b2 b3 : Nat) : Nat :=
  b0 + 256 * b1 + 65536 * b2 + 16777216 * b3

/-- Mirror of `V4Header::from_bytes`: require 15 bytes, take the 6-byte
signature, and parse the two little-endian `u32` size fields at offsets
6 and 10. -/
def from_bytes (bytes : Bytes) : Except DecryptError V4Header :=
  if bytes.length < SIZE then
    Except.error DecryptError.HeaderParseError
  else
    Except.ok
      { signature := bytes.take 6
        aes_size := u32le (bytes.getD 6 0) (bytes.getD 7 0)
          (bytes.getD 8 0) (bytes.getD 9 0)
        xor_size := u32le (bytes.getD 10 0) (bytes.getD 11 0)
          (bytes.getD 12 0) (bytes.getD 13 0) }

end V4Header

namespace V4Decryptor

/-- Mirror of `V4Decryptor::decrypt_remaining_sections`.  `pos` is the stream
position after the AES region was read; `result` is the decrypted AES region.
When `xor_size > 0` the code computes `file_len - current_pos - xor_size` in
unchecked `u64` arithmetic: if `file_len < current_pos + xor_size` this
underflows, which panics in a debug build and aborts on the subsequent huge
allocation in a release build — modelled as `DResult.panic`.  Otherwise the
raw middle bytes are appended verbatim and the trailing `xor_size` bytes are
XOR-decrypted.  When `xor_size == 0` the remainder of the stream is appended
verbatim. -/
def decrypt_remaining_sections (header : V4Header) (xor_key : Nat)
    (result : Bytes) (file : Bytes) (pos : Nat) : DResult :=
  let xor_size := header.xor_size
  if 0 < xor_size then
    if file.length < pos + xor_size then
      DResult.panic "attempt to subtract with overflow"
    else
      let raw_len := file.length - pos - xor_size
      let raw_data := (file.drop pos).take raw_len
      let xor_data := (file.drop (pos + raw_len)).take xor_size
      DResult.ok (result ++ raw_data ++ V3Decryptor.xor_decrypt xor_data xor_key)
  else
    DResult.ok (result ++ file.drop pos)

/-- Mirror of `V4Decryptor::decrypt` (with `decrypt_aes_section` inlined as in
the source's sequential reads): validate the key length, read the 15 header
bytes (`read_exact` fails with an I/O error on a short file), parse the
header, read `align_size(aes_size)` bytes and ECB-decrypt them, then process
the remaining sections. -/
def decrypt (decB : Bytes → Bytes) (file : Bytes) (xor_key : Nat)
    (aes_key : Bytes) : DResult :=
  if aes_key.length ≠ 16 then
    DResult.err (DecryptError.AesDecryptError "AES 密钥必须为 16 字节")
  else if file.length < V4Header.SIZE then
    DResult.err (DecryptError.IoError readExactEofMsg)
  else
    match V4Header.from_bytes (file.take V4Header.SIZE) with
    | Except.error e => DResult.err e
    | Except.ok header =>
      let aligned := AesHandler.align_size header.aes_size
      if file.length < V4Header.SIZE + aligned then
        DResult.err (DecryptError.IoError readExactEofMsg)
      else
        let aes_data := (file.drop V4Header.SIZE).take aligned
        match AesHandler.decrypt_ecb decB aes_data aes_key with
        | Except.error e => DResult.err e
        | Except.ok decrypted =>
          decrypt_remaining_sections header xor_key decrypted file
            (V4Header.SIZE + aligned)

end V4Decryptor

namespace DatDecryptor

/-- The `match version` arm of `DatDecryptor::decrypt`, factored out so the
dispatch can be stated for every version value. -/
def dispatch (decB : Bytes → Bytes) (version : DatVersion) (file : Bytes)
    (xor_key : Nat) (aes_key : Option Bytes) : DResult :=
  match version with
  | DatVersion.V3 => V3Decryptor.decrypt file xor_key
  | DatVersion.V4V1 | DatVersion.V4V2 =>
    match aes_key with
    | none => DResult.err (DecryptError.AesDecryptError "v4 版本需要提供 AES 密钥")
    | some key => V4Decryptor.decrypt decB file xor_key key
  | DatVersion.Unknown => DResult.err DecryptError.UnsupportedVersion

/-- Mirror of `DatDecryptor::decrypt`: detect the version, then dispatch. -/
def decrypt (decB : Bytes → Bytes) (file : Bytes) (xor_key : Nat)
    (aes_key : Option Bytes) : DResult :=
  dispatch decB (VersionDetector.detect file) file xor_key aes_key

end DatDecryptor

/-! ## Helper lemmas -/

/-- A 16-byte list is literally sixteen conses. -/
lemma length_sixteen_decomp (b : Bytes) (hb : b.length = 16) :
    ∃ x0 x1 x2 x3 x4 x5 x6 x7 x8 x9 x10 x11 x12 x13 x14 x15,
      b = [x0, x1, x2, x3, x4, x5, x6, x7, x8, x9, x10, x11, x12, x13, x14, x15] := by
  rcases b with _ | ⟨x0, b⟩; · simp only [List.length_cons, List.length_nil] at hb; omega
  rcases b with _ | ⟨x1, b⟩; · simp only [List.length_cons, List.length_nil] at hb; omega
  rcases b with _ | ⟨x2, b⟩; · simp only [List.length_cons, List.length_nil] at hb; omega
  rcases b with _ | ⟨x3, b⟩; · simp only [List.length_cons, List.length_nil] at hb; omega
  rcases b with _ | ⟨x4, b⟩; · simp only [List.length_cons, List.length_nil] at hb; omega
  rcases b with _ | ⟨x5, b⟩; · simp only [List.length_cons, List.length_nil] at hb; omega
  rcases b with _ | ⟨x6, b⟩; · simp only [List.length_cons, List.length_nil] at hb; omega
  rcases b with _ | ⟨x7, b⟩; · simp only [List.length_cons, List.length_nil] at hb; omega
  rcases b with _ | ⟨x8, b⟩; · simp only [List.length_cons, List.length_nil] at hb; omega
  rcases b with _ | ⟨x9, b⟩; · simp only [List.length_cons, List.length_nil] at hb; omega
  rcases b with _ | ⟨x10, b⟩; · simp only [List.length_cons, List.length_nil] at hb; omega
  rcases b with _ | ⟨x11, b⟩; · simp only [List.length_cons, List.length_nil] at hb; omega
  rcases b with _ | ⟨x12, b⟩; · simp only [List.length_cons, List.length_nil] at hb; omega
  rcases b with _ | ⟨x13, b⟩; · simp only [List.length_cons, List.length_nil] at hb; omega
  rcases b with _ | ⟨x14, b⟩; · simp only [List.length_cons, List.length_nil] at hb; omega
  rcases b with _ | ⟨x15, b⟩; · simp only [List.length_cons, List.length_nil] at hb; omega
  rcases b with _ | ⟨x16, b⟩
  · exact ⟨x0, x1, x2, x3, x4, x5, x6, x7, x8, x9, x10, x11, x12, x13, x14, x15, rfl⟩
  · simp only [List.length_cons] at hb; omega

/-- `ecbBlocks` applied to a 16-byte block followed by a rest. -/
lemma ecbBlocks_block_cons (decB : Bytes → Bytes) (b r : Bytes)
    (hb : b.length = 16) :
    AesHandler.ecbBlocks decB (b ++ r) = decB b ++ AesHandler.ecbBlocks decB r := by
  obtain ⟨x0, x1, x2, x3, x4, x5, x6, x7, x8, x9, x10, x11, x12, x13, x14, x15, rfl⟩ :=
    length_sixteen_decomp b hb
  rfl

/-- A buffer shorter than one block is returned untouched by `ecbBlocks`. -/
lemma ecbBlocks_short (decB : Bytes → Bytes) (l : Bytes) (h : l.length < 16) :
    AesHandler.ecbBlocks decB l = l := by
  unfold AesHandler.ecbBlocks
  split
  · simp only [List.length_cons] at h; omega
  · rfl

/-- Unfolding `ecbBlocks` one block at a time via `take`/`drop`. -/
lemma ecbBlocks_step (decB : Bytes → Bytes) (l : Bytes) (h : 16 ≤ l.length) :
    AesHandler.ecbBlocks decB l
      = decB (l.take 16) ++ AesHandler.ecbBlocks decB (l.drop 16) := by
  have ht : (l.take 16).length = 16 := by
    simp only [List.length_take]; omega
  conv_lhs => rw [← List.take_append_drop 16 l]
  rw [ecbBlocks_block_cons _ _ _ ht]

/-- `ecbBlocks` preserves the buffer length when the block transform maps
16-byte blocks to 16-byte blocks (as the in-place `decrypt_block` does). -/
lemma ecbBlocks_length (decB : Bytes → Bytes)
    (hf : ∀ b : Bytes, b.length = 16 → (decB b).length = 16) (l : Bytes) :
    (AesHandler.ecbBlocks decB l).length = l.length := by
  generalize hn : l.length = n
  induction n using Nat.strong_induction_on generalizing l with
  | _ n ih =>
    subst hn
    by_cases h : l.length < 16
    · rw [ecbBlocks_short _ _ h]
    · have h16 : 16 ≤ l.length := le_of_not_lt h
      have ht : (l.take 16).length = 16 := by
        simp only [List.length_take]; omega
      rw [ecbBlocks_step _ _ h16, List.length_append, hf _ ht,
        ih (l.drop 16).length (by simp only [List.length_drop]; omega) (l.drop 16) rfl]
      simp only [List.length_drop]; omega

/-- The trailing partial block (the last `l.length % 16` bytes) passes
through `ecbBlocks` unchanged. -/
lemma ecbBlocks_drop_tail (decB : Bytes → Bytes)
    (hf : ∀ b : Bytes, b.length = 16 → (decB b).length = 16) (l : Bytes) :
    (AesHandler.ecbBlocks decB l).drop (16 * (l.length / 16))
      = l.drop (16 * (l.length / 16)) := by
  generalize hn : l.length = n
  induction n using Nat.strong_induction_on generalizing l with
  | _ n ih =>
    subst hn
    by_cases h : l.length < 16
    · rw [ecbBlocks_short _ _ h]
    · have h16 : 16 ≤ l.length := le_of_not_lt h
      have ht : (l.take 16).length = 16 := by
        simp only [List.length_take]; omega
      have hfd : (decB (l.take 16)).length = 16 := hf _ ht
      have harith : 16 * (l.length / 16) = 16 + 16 * ((l.drop 16).length / 16) := by
        simp only [List.length_drop]; omega
      rw [ecbBlocks_step _ _ h16, harith]
      have hrhs : List.drop (16 + 16 * ((l.drop 16).length / 16)) l
          = List.drop (16 * ((l.drop 16).length / 16)) (l.drop 16) := by
        rw [List.drop_drop]
      rw [hrhs]
      rw [show (16 : Nat) + 16 * ((l.drop 16).length / 16)
            = (decB (l.take 16)).length + 16 * ((l.drop 16).length / 16) by rw [hfd]]
      rw [List.drop_append]
      exact ih (l.drop 16).length (by simp only [List.length_drop]; omega) (l.drop 16) rfl

/-- The first `16 * (l.length / 16)` output bytes of `ecbBlocks` are the
blockwise decryption of the first `16 * (l.length / 16)` input bytes. -/
lemma ecbBlocks_take_blocks (decB : Bytes → Bytes)
    (hf : ∀ b : Bytes, b.length = 16 → (decB b).length = 16) (l : Bytes) :
    (AesHandler.ecbBlocks decB l).take (16 * (l.length / 16))
      = AesHandler.ecbBlocks decB (l.take (16 * (l.length / 16))) := by
  generalize hn : l.length = n
  induction n using Nat.strong_induction_on generalizing l with
  | _ n ih =>
    subst hn
    by_cases h : l.length < 16
    · rw [ecbBlocks_short _ _ h, Nat.div_eq_of_lt h]
      simp only [Nat.mul_zero, List.take_zero]
      rfl
    · have h16 : 16 ≤ l.length := le_of_not_lt h
      have ht : (l.take 16).length = 16 := by
        simp only [List.length_take]; omega
      have hfd : (decB (l.take 16)).length = 16 := hf _ ht
      have harith : 16 * (l.length / 16) = 16 + 16 * ((l.drop 16).length / 16) := by
        simp only [List.length_drop]; omega
      rw [ecbBlocks_step _ _ h16, harith]
      have hrhs : List.take (16 + 16 * ((l.drop 16).length / 16)) l
          = l.take 16 ++ List.take (16 * ((l.drop 16).length / 16)) (l.drop 16) :=
        List.take_add l 16 (16 * ((l.drop 16).length / 16))
      rw [hrhs, ecbBlocks_block_cons _ _ _ ht]
      rw [show (16 : Nat) + 16 * ((l.drop 16).length / 16)
            = (decB (l.take 16)).length + 16 * ((l.drop 16).length / 16) by rw [hfd]]
      rw [List.take_append]
      rw [ih (l.drop 16).length (by simp only [List.length_drop]; omega) (l.drop 16) rfl]

/-- Blockwise decryption inverts blockwise encryption on block-aligned
buffers. -/
lemma ecbBlocks_left_inverse (E D : Bytes → Bytes)
    (hED : ∀ b : Bytes, b.length = 16 → D (E b) = b)
    (hElen : ∀ b : Bytes, b.length = 16 → (E b).length = 16)
    (l : Bytes) (hl : l.length % 16 = 0) :
    AesHandler.ecbBlocks D (AesHandler.ecbBlocks E l) = l := by
  generalize hn : l.length = n
  induction n using Nat.strong_induction_on generalizing l with
  | _ n ih =>
    subst hn
    by_cases h : l.length < 16
    · have hz : l.length = 0 := by omega
      have : l = [] := List.eq_nil_of_length_eq_zero hz
      subst this
      rfl
    · have h16 : 16 ≤ l.length := le_of_not_lt h
      have ht : (l.take 16).length = 16 := by
        simp only [List.length_take]; omega
      rw [ecbBlocks_step E _ h16,
        ecbBlocks_block_cons D _ _ (hElen _ ht), hED _ ht,
        ih (l.drop 16).length (by simp only [List.length_drop]; omega) (l.drop 16)
          (by simp only [List.length_drop]; omega) rfl]
      exact List.take_append_drop 16 l

/-- XOR with a fixed key is an involution on byte buffers. -/
lemma xor_decrypt_involutive (data : Bytes) (key : Nat) :
    V3Decryptor.xor_decrypt (V3Decryptor.xor_decrypt data key) key = data := by
  unfold V3Decryptor.xor_decrypt
  rw [List.map_map]
  have : ((fun b => b ^^^ key) ∘ fun b => b ^^^ key) = fun b : Nat => b := by
    funext b
    simp only [Function.comp_apply]
    exact Nat.xor_cancel_right key b
  rw [this, List.map_id']

/-! ## Claim theorems -/

/-- Claim C4: for every `n`, `align_size n` equals `n + (16 - n % 16)`; it is
a multiple of 16 strictly greater than `n`, adds a full extra block when `n`
is already a multiple of 16, and takes the documented values at 15, 16, 17. -/
theorem align_size_exact_formula (n : Nat) :
    AesHandler.align_size n = n + (16 - n % 16)
  ∧ AesHandler.align_size n % 16 = 0
  ∧ n < AesHandler.align_size n
  ∧ (n % 16 = 0 → AesHandler.align_size n = n + 16)
  ∧ AesHandler.align_size 15 = 16
  ∧ AesHandler.align_size 16 = 32
  ∧ AesHandler.align_size 17 = 32 := by
  unfold AesHandler.align_size AesHandler.BLOCK_SIZE
  refine ⟨rfl, ?_, ?_, ?_, by norm_num, by norm_num, by norm_num⟩ <;> omega

/-- Witness for C4 at the aligned input 32: a full extra block is added. -/
theorem align_size_exact_formula_witness :
    32 % 16 = 0 ∧ AesHandler.align_size 32 = 32 + 16 :=
  ⟨by decide, (align_size_exact_formula 32).2.2.2.1 (by decide)⟩

/-- Claim C9: `xor_decrypt` preserves length, XORs every byte with the key
pointwise, and is an involution. -/
theorem xor_decrypt_spec (data : Bytes) (key : Nat) :
    (V3Decryptor.xor_decrypt data key).length = data.length
  ∧ (∀ i : Nat,
      (V3Decryptor.xor_decrypt data key)[i]? = data[i]?.map (fun b => b ^^^ key))
  ∧ V3Decryptor.xor_decrypt (V3Decryptor.xor_decrypt data key) key = data := by
  refine ⟨by simp [V3Decryptor.xor_decrypt], fun i => ?_,
    xor_decrypt_involutive data key⟩
  simp [V3Decryptor.xor_decrypt, List.getElem?_map]

/-- Claim C5: `detect` returns `V4V1` exactly on the fixed-key signature,
`V4V2` exactly on the dynamic-key signature, `V3` on short files and on any
other prefix, and never returns `Unknown`. -/
theorem detect_characterization (file : Bytes) :
    (VersionDetector.detect file = DatVersion.V4V1
      ↔ file.take 6 = VersionDetector.V4_V1_SIGNATURE)
  ∧ (VersionDetector.detect file = DatVersion.V4V2
      ↔ file.take 6 = VersionDetector.V4_V2_SIGNATURE)
  ∧ (file.length < 6 → VersionDetector.detect file = DatVersion.V3)
  ∧ (file.take 6 ≠ VersionDetector.V4_V1_SIGNATURE →
      file.take 6 ≠ VersionDetector.V4_V2_SIGNATURE →
      VersionDetector.detect file = DatVersion.V3)
  ∧ VersionDetector.detect file ≠ DatVersion.Unknown := by
  have hs1 : file.take 6 = VersionDetector.V4_V1_SIGNATURE → ¬ file.length < 6 := by
    intro h hl
    have hlen := congrArg List.length h
    simp only [List.length_take, VersionDetector.V4_V1_SIGNATURE,
      List.length_cons, List.length_nil] at hlen
    omega
  have hs2 : file.take 6 = VersionDetector.V4_V2_SIGNATURE → ¬ file.length < 6 := by
    intro h hl
    have hlen := congrArg List.length h
    simp only [List.length_take, VersionDetector.V4_V2_SIGNATURE,
      List.length_cons, List.length_nil] at hlen
    omega
  have hsig12 : VersionDetector.V4_V1_SIGNATURE ≠ VersionDetector.V4_V2_SIGNATURE := by
    decide
  have hsig21 : VersionDetector.V4_V2_SIGNATURE ≠ VersionDetector.V4_V1_SIGNATURE := by
    decide
  by_cases h6 : file.length < 6
  · have h1 : file.take 6 ≠ VersionDetector.V4_V1_SIGNATURE := fun hc => hs1 hc h6
    have h2 : file.take 6 ≠ VersionDetector.V4_V2_SIGNATURE := fun hc => hs2 hc h6
    simp [VersionDetector.detect, h6, h1, h2]
  · by_cases ht1 : file.take 6 = VersionDetector.V4_V1_SIGNATURE
    · have ht2 : file.take 6 ≠ VersionDetector.V4_V2_SIGNATURE := by
        rw [ht1]; exact hsig12
      simp [VersionDetector.detect, h6, ht1, ht2, hsig12]
    · by_cases ht2 : file.take 6 = VersionDetector.V4_V2_SIGNATURE
      · simp [VersionDetector.detect, h6, ht1, ht2, hsig21]
      · simp [VersionDetector.detect, h6, ht1, ht2]

/-- Witness for C5: the empty file is shorter than 6 bytes and detects as
`V3` (the legacy XOR variant). -/
theorem detect_characterization_witness :
    ([] : Bytes).length < 6 ∧ VersionDetector.detect [] = DatVersion.V3 :=
  ⟨by decide, (detect_characterization []).2.2.1 (by decide)⟩

/-- Claim C3: `pkcs7_unpad` fails on the empty buffer; on a non-empty buffer
it reads the last byte as the padding length and fails exactly when that
length is zero, exceeds 16, exceeds the buffer length, or the trailing bytes
are not all equal to it; otherwise it succeeds with the buffer truncated by
the padding length. -/
theorem pkcs7_unpad_spec (data : Bytes) :
    AesHandler.pkcs7_unpad []
      = Except.error (DecryptError.AesDecryptError "数据为空")
  ∧ (data ≠ [] →
      (AesHandler.pkcs7_unpad data
          = Except.ok (data.take (data.length - data.getLastD 0))
        ↔ data.getLastD 0 ≠ 0 ∧ data.getLastD 0 ≤ 16 ∧ data.getLastD 0 ≤ data.length
          ∧ (data.drop (data.length - data.getLastD 0)).all
              (fun b => b == data.getLastD 0) = true)
      ∧ ((∃ e, AesHandler.pkcs7_unpad data = Except.error e)
        ↔ data.getLastD 0 = 0 ∨ 16 < data.getLastD 0 ∨ data.length < data.getLastD 0
          ∨ (data.drop (data.length - data.getLastD 0)).all
              (fun b => b == data.getLastD 0) = false)
      ∧ (∀ r, AesHandler.pkcs7_unpad data = Except.ok r →
          r = data.take (data.length - data.getLastD 0))) := by
  refine ⟨by decide, fun hne => ?_⟩
  have hE : ¬ (data.isEmpty = true) := by
    simp only [List.isEmpty_iff]; exact hne
  simp only [AesHandler.pkcs7_unpad, AesHandler.BLOCK_SIZE]
  rw [if_neg hE]
  split_ifs with h1 h2
  · refine ⟨⟨fun hc => absurd hc (by simp), ?_⟩,
      ⟨fun _ => ?_,
        fun _ => ⟨DecryptError.AesDecryptError "无效的填充", rfl⟩⟩,
      fun r hr => absurd hr (by simp)⟩
    · rintro ⟨hc0, hc16, hclen, _⟩
      rcases h1 with h | h | h
      · exact absurd h hc0
      · omega
      · omega
    · rcases h1 with h | h | h
      · exact Or.inl h
      · exact Or.inr (Or.inl h)
      · exact Or.inr (Or.inr (Or.inl h))
  · have h1' : ¬(data.getLastD 0 = 0 ∨ data.getLastD 0 > 16
        ∨ data.getLastD 0 > data.length) := h1
    push_neg at h1'
    refine ⟨?_, ⟨?_, ?_⟩, ?_⟩
    · simp only [Except.ok.injEq]
      exact ⟨fun _ => ⟨h1'.1, h1'.2.1, h1'.2.2, h2⟩, fun _ => trivial⟩
    · rintro ⟨e, he⟩
      exact absurd he (by simp)
    · rintro (h | h | h | h)
      · exact absurd h h1'.1
      · exact absurd h (by omega)
      · exact absurd h (by omega)
      · exact absurd (h2.symm.trans h) (by decide)
    · intro r hr
      simp only [Except.ok.injEq] at hr
      exact hr.symm
  · have h2' : (data.drop (data.length - data.getLastD 0)).all
        (fun b => b == data.getLastD 0) = false := by
      simp only [Bool.not_eq_true] at h2
      exact h2
    refine ⟨⟨fun hc => absurd hc (by simp), ?_⟩,
      ⟨fun _ => ?_,
        fun _ => ⟨DecryptError.AesDecryptError "填充验证失败", rfl⟩⟩,
      fun r hr => absurd hr (by simp)⟩
    · rintro ⟨_, _, _, hall⟩
      exact absurd hall h2
    · exact Or.inr (Or.inr (Or.inr h2'))

/-- Witness for C3: unpadding `[1,2,3,1]` succeeds and truncates the single
padding byte, reproducing the spec's test vector. -/
theorem pkcs7_unpad_spec_witness :
    ([1, 2, 3, 1] : Bytes) ≠ []
  ∧ AesHandler.pkcs7_unpad [1, 2, 3, 1] = Except.ok [1, 2, 3] :=
  ⟨by decide, ((pkcs7_unpad_spec [1, 2, 3, 1]).2 (by decide)).1.mpr (by decide)⟩

/-- Claim C10: `decrypt_ecb` performs no alignment check — for every input
(aligned or not) it equals PKCS#7-unpadding of the blockwise-decrypted
buffer; only the first `len / 16` complete blocks are decrypted, and the
trailing `len % 16` bytes flow into the unpadding step unchanged. -/
theorem decrypt_ecb_partial_blocks (decB : Bytes → Bytes) (data key : Bytes)
    (hkey : key.length = 16)
    (hB : ∀ b : Bytes, b.length = 16 → (decB b).length = 16) :
    AesHandler.decrypt_ecb decB data key
      = AesHandler.pkcs7_unpad (AesHandler.ecbBlocks decB data)
  ∧ (AesHandler.ecbBlocks decB data).length = data.length
  ∧ (AesHandler.ecbBlocks decB data).drop (16 * (data.length / 16))
      = data.drop (16 * (data.length / 16))
  ∧ (data.drop (16 * (data.length / 16))).length = data.length % 16
  ∧ (AesHandler.ecbBlocks decB data).take (16 * (data.length / 16))
      = AesHandler.ecbBlocks decB (data.take (16 * (data.length / 16))) := by
  refine ⟨?_, ecbBlocks_length decB hB data, ecbBlocks_drop_tail decB hB data,
    ?_, ecbBlocks_take_blocks decB hB data⟩
  · unfold AesHandler.decrypt_ecb
    rw [if_neg (by simp [hkey])]
  · simp only [List.length_drop]; omega

/-- Witness for C10 at the 3-byte (unaligned) input `[1,2,3]`: no alignment
error is raised; the call reduces to unpadding the untouched buffer. -/
theorem decrypt_ecb_partial_blocks_witness :
    (List.replicate 16 0 : Bytes).length = 16
  ∧ AesHandler.decrypt_ecb (fun b => b) [1, 2, 3] (List.replicate 16 0)
      = AesHandler.pkcs7_unpad (AesHandler.ecbBlocks (fun b => b) [1, 2, 3]) :=
  ⟨by decide,
    (decrypt_ecb_partial_blocks (fun b => b) [1, 2, 3] (List.replicate 16 0)
      (by decide) (fun _ h => h)).1⟩

/-- Characterization of a successful `V4Decryptor::decrypt` run: once the key
is 16 bytes, the header parses, the file is long enough, and the AES region
decrypts, the output is the decrypted AES region, then the raw middle bytes,
then the XOR-decrypted tail (stated with the tail offset in the stream-read
form `pos + raw_len`). -/
lemma v4_decrypt_ok_of (decB : Bytes → Bytes) (file : Bytes) (xor_key : Nat)
    (aes_key : Bytes) (header : V4Header) (plain : Bytes)
    (hkey : aes_key.length = 16)
    (hparse : V4Header.from_bytes (file.take 15) = Except.ok header)
    (hlen : 15 + AesHandler.align_size header.aes_size + header.xor_size
      ≤ file.length)
    (hecb : AesHandler.decrypt_ecb decB
        ((file.drop 15).take (AesHandler.align_size header.aes_size)) aes_key
      = Except.ok plain) :
    V4Decryptor.decrypt decB file xor_key aes_key
      = DResult.ok (plain
        ++ (file.drop (15 + AesHandler.align_size header.aes_size)).take
            (file.length - (15 + AesHandler.align_size header.aes_size)
              - header.xor_size)
        ++ V3Decryptor.xor_decrypt
            ((file.drop ((15 + AesHandler.align_size header.aes_size)
                + (file.length - (15 + AesHandler.align_size header.aes_size)
                  - header.xor_size))).take header.xor_size) xor_key) := by
  have h15 : 15 ≤ file.length := by
    by_contra hlt
    push_neg at hlt
    have htk : (file.take 15).length < 15 := by
      simp only [List.length_take]; omega
    unfold V4Header.from_bytes V4Header.SIZE at hparse
    rw [if_pos htk] at hparse
    exact absurd hparse (by simp)
  unfold V4Decryptor.decrypt V4Header.SIZE
  rw [if_neg (by simp [hkey])]
  rw [if_neg (by omega)]
  rw [hparse]
  simp only []
  rw [if_neg (by omega)]
  rw [hecb]
  simp only []
  unfold V4Decryptor.decrypt_remaining_sections
  by_cases hx : 0 < header.xor_size
  · rw [if_pos hx, if_neg (by omega)]
  · have hx0 : header.xor_size = 0 := by omega
    rw [if_neg hx, hx0]
    simp only [Nat.sub_zero, List.take_zero, V3Decryptor.xor_decrypt,
      List.map_nil, List.append_nil]
    rw [List.take_of_length_le (by simp only [List.length_drop]; exact le_refl _)]

/-- Claim C1: a successful v4 container decrypt returns
`decrypted_aes ++ raw_middle ++ decrypted_xor` in order, where the middle
length is `total_length - current_position - xor_region_size`, exactly the
trailing `xor_region_size` bytes are XOR-decrypted, and with
`xor_region_size = 0` the whole remainder is appended verbatim with no XOR
pass. -/
theorem v4_decrypt_region_concat (decB : Bytes → Bytes) (file : Bytes)
    (xor_key : Nat) (aes_key : Bytes) (header : V4Header) (plain : Bytes)
    (hkey : aes_key.length = 16)
    (hparse : V4Header.from_bytes (file.take 15) = Except.ok header)
    (hlen : 15 + AesHandler.align_size header.aes_size + header.xor_size
      ≤ file.length)
    (hecb : AesHandler.decrypt_ecb decB
        ((file.drop 15).take (AesHandler.align_size header.aes_size)) aes_key
      = Except.ok plain) :
    V4Decryptor.decrypt decB file xor_key aes_key
      = DResult.ok (plain
        ++ (file.drop (15 + AesHandler.align_size header.aes_size)).take
            (file.length - (15 + AesHandler.align_size header.aes_size)
              - header.xor_size)
        ++ V3Decryptor.xor_decrypt
            ((file.drop (file.length - header.xor_size)).take header.xor_size)
            xor_key)
  ∧ (header.xor_size = 0 →
      V4Decryptor.decrypt decB file xor_key aes_key
        = DResult.ok
            (plain ++ file.drop (15 + AesHandler.align_size header.aes_size))) := by
  have hmain := v4_decrypt_ok_of decB file xor_key aes_key header plain
    hkey hparse hlen hecb
  constructor
  · rw [hmain,
      show (15 + AesHandler.align_size header.aes_size)
          + (file.length - (15 + AesHandler.align_size header.aes_size)
            - header.xor_size)
        = file.length - header.xor_size from by omega]
  · intro hx0
    rw [hmain, hx0]
    simp only [Nat.sub_zero, List.take_zero, V3Decryptor.xor_decrypt,
      List.map_nil, List.append_nil]
    rw [List.take_of_length_le (by simp only [List.length_drop]; exact le_refl _)]

/-- Witness for C1 on a concrete container: empty AES plaintext, a 3-byte raw
middle, and a 2-byte XOR tail under key 1. -/
theorem v4_decrypt_region_concat_witness :
    V4Decryptor.decrypt (fun b => b)
        ([7, 8, 86, 49, 8, 7, 0, 0, 0, 0, 2, 0, 0, 0, 0]
          ++ List.replicate 16 16 ++ [1, 2, 3] ++ [12, 13])
        1 (List.replicate 16 0)
      = DResult.ok [1, 2, 3, 13, 12] :=
  ((v4_decrypt_region_concat (fun b => b)
      ([7, 8, 86, 49, 8, 7, 0, 0, 0, 0, 2, 0, 0, 0, 0]
        ++ List.replicate 16 16 ++ [1, 2, 3] ++ [12, 13])
      1 (List.replicate 16 0) ⟨[7, 8, 86, 49, 8, 7], 0, 2⟩ []
      (by decide) (by decide) (by decide) (by decide)).1).trans (by decide)

/-- Unpadding a buffer that ends in a well-formed PKCS#7 padding block of
`m + 1` copies of `m + 1` recovers the prefix. -/
lemma pkcs7_unpad_pad_block (p : Bytes) (m : Nat) (h16 : m + 1 ≤ 16) :
    AesHandler.pkcs7_unpad (p ++ List.replicate (m + 1) (m + 1)) = Except.ok p := by
  have hrep : p ++ List.replicate (m + 1) (m + 1)
      = (p ++ List.replicate m (m + 1)) ++ [m + 1] := by
    rw [List.replicate_succ', ← List.append_assoc]
  have hlast : (p ++ List.replicate (m + 1) (m + 1)).getLastD 0 = m + 1 := by
    rw [hrep, List.getLastD_concat]
  have hlen : (p ++ List.replicate (m + 1) (m + 1)).length = p.length + (m + 1) := by
    simp [List.length_append, List.length_replicate]
  have hne : ¬((p ++ List.replicate (m + 1) (m + 1)).isEmpty = true) := by
    simp only [List.isEmpty_iff]
    intro hc
    have hl := congrArg List.length hc
    rw [hlen] at hl
    simp at hl
  simp only [AesHandler.pkcs7_unpad, AesHandler.BLOCK_SIZE]
  rw [if_neg hne, hlast, hlen]
  rw [if_neg (by omega)]
  rw [show p.length + (m + 1) - (m + 1) = p.length from by omega]
  rw [List.drop_left]
  rw [if_pos (by simp [List.all_eq_true, List.mem_replicate])]
  rw [List.take_left]

/-- Claim C2: the round-trip scenario.  For any ECB block cipher pair `E`/`D`
that are mutually inverse on 16-byte blocks (as AES-128 encryption and
decryption under one 16-byte key are), a container built from a 20-byte
plaintext (`aes_region_size = 20`, padded to 32 bytes and block-encrypted),
no middle bytes, and 5 XOR-encrypted trailing bytes (`xor_region_size = 5`)
decrypts back to the 20 plaintext bytes followed by the 5 plaintext trailing
bytes. -/
theorem v4_roundtrip_20_5 (E D : Bytes → Bytes) (xor_key : Nat)
    (aes_key : Bytes) (p t : Bytes)
    (hkey : aes_key.length = 16) (hp : p.length = 20) (ht : t.length = 5)
    (hED : ∀ b : Bytes, b.length = 16 → D (E b) = b)
    (hElen : ∀ b : Bytes, b.length = 16 → (E b).length = 16) :
    V4Decryptor.decrypt D
        ([7, 8, 86, 49, 8, 7, 20, 0, 0, 0, 5, 0, 0, 0, 0]
          ++ AesHandler.ecbBlocks E (p ++ List.replicate 12 12)
          ++ V3Decryptor.xor_decrypt t xor_key)
        xor_key aes_key
      = DResult.ok (p ++ t) := by
  have hpadlen : (p ++ List.replicate 12 12).length = 32 := by
    simp [List.length_append, List.length_replicate, hp]
  have hclen : (AesHandler.ecbBlocks E (p ++ List.replicate 12 12)).length = 32 := by
    rw [ecbBlocks_length E hElen]; exact hpadlen
  have hxlen : (V3Decryptor.xor_decrypt t xor_key).length = 5 := by
    simp [V3Decryptor.xor_decrypt, ht]
  have hflen : ([7, 8, 86, 49, 8, 7, 20, 0, 0, 0, 5, 0, 0, 0, 0]
      ++ AesHandler.ecbBlocks E (p ++ List.replicate 12 12)
      ++ V3Decryptor.xor_decrypt t xor_key).length = 52 := by
    simp only [List.length_append, hclen, hxlen]
    decide
  have htake15 : ([7, 8, 86, 49, 8, 7, 20, 0, 0, 0, 5, 0, 0, 0, 0]
      ++ AesHandler.ecbBlocks E (p ++ List.replicate 12 12)
      ++ V3Decryptor.xor_decrypt t xor_key).take 15
      = [7, 8, 86, 49, 8, 7, 20, 0, 0, 0, 5, 0, 0, 0, 0] := by
    rw [List.append_assoc]
    exact List.take_left' (by decide)
  have hdrop15 : ([7, 8, 86, 49, 8, 7, 20, 0, 0, 0, 5, 0, 0, 0, 0]
      ++ AesHandler.ecbBlocks E (p ++ List.replicate 12 12)
      ++ V3Decryptor.xor_decrypt t xor_key).drop 15
      = AesHandler.ecbBlocks E (p ++ List.replicate 12 12)
        ++ V3Decryptor.xor_decrypt t xor_key := by
    rw [List.append_assoc]
    exact List.drop_left' (by decide)
  have hparse : V4Header.from_bytes (([7, 8, 86, 49, 8, 7, 20, 0, 0, 0, 5, 0, 0, 0, 0]
      ++ AesHandler.ecbBlocks E (p ++ List.replicate 12 12)
      ++ V3Decryptor.xor_decrypt t xor_key).take 15)
      = Except.ok ⟨[7, 8, 86, 49, 8, 7], 20, 5⟩ := by
    rw [htake15]; decide
  have hecb : AesHandler.decrypt_ecb D
      ((([7, 8, 86, 49, 8, 7, 20, 0, 0, 0, 5, 0, 0, 0, 0]
        ++ AesHandler.ecbBlocks E (p ++ List.replicate 12 12)
        ++ V3Decryptor.xor_decrypt t xor_key).drop 15).take
          (AesHandler.align_size (V4Header.mk [7, 8, 86, 49, 8, 7] 20 5).aes_size))
      aes_key = Except.ok p := by
    rw [hdrop15]
    rw [show AesHandler.align_size (V4Header.mk [7, 8, 86, 49, 8, 7] 20 5).aes_size
        = 32 from by decide]
    rw [List.take_left' hclen]
    unfold AesHandler.decrypt_ecb
    rw [if_neg (by simp [hkey])]
    rw [ecbBlocks_left_inverse E D hED hElen _ (by rw [hpadlen])]
    exact pkcs7_unpad_pad_block p 11 (by decide)
  have hlen : 15 + AesHandler.align_size (V4Header.mk [7, 8, 86, 49, 8, 7] 20 5).aes_size
      + (V4Header.mk [7, 8, 86, 49, 8, 7] 20 5).xor_size
      ≤ ([7, 8, 86, 49, 8, 7, 20, 0, 0, 0, 5, 0, 0, 0, 0]
        ++ AesHandler.ecbBlocks E (p ++ List.replicate 12 12)
        ++ V3Decryptor.xor_decrypt t xor_key).length := by
    rw [hflen]; decide
  have hmain := v4_decrypt_ok_of D
    ([7, 8, 86, 49, 8, 7, 20, 0, 0, 0, 5, 0, 0, 0, 0]
      ++ AesHandler.ecbBlocks E (p ++ List.replicate 12 12)
      ++ V3Decryptor.xor_decrypt t xor_key)
    xor_key aes_key (V4Header.mk [7, 8, 86, 49, 8, 7] 20 5) p
    hkey hparse hlen hecb
  rw [hmain, hflen]
  rw [show AesHandler.align_size (V4Header.mk [7, 8, 86, 49, 8, 7] 20 5).aes_size
      = 32 from by decide]
  rw [show (V4Header.mk [7, 8, 86, 49, 8, 7] 20 5).xor_size = 5 from rfl]
  rw [show (52 : Nat) - (15 + 32) - 5 = 0 from by decide]
  simp only [List.take_zero, List.append_nil, Nat.add_zero]
  have hdrop47 : ([7, 8, 86, 49, 8, 7, 20, 0, 0, 0, 5, 0, 0, 0, 0]
      ++ AesHandler.ecbBlocks E (p ++ List.replicate 12 12)
      ++ V3Decryptor.xor_decrypt t xor_key).drop (15 + 32)
      = V3Decryptor.xor_decrypt t xor_key := by
    exact List.drop_left' (by simp only [List.length_append, hclen]; decide)
  rw [hdrop47]
  rw [List.take_of_length_le (le_of_eq hxlen)]
  rw [xor_decrypt_involutive t xor_key]

/-- Witness for C2 with the identity block cipher, a concrete plaintext and
concrete trailing bytes. -/
theorem v4_roundtrip_20_5_witness :
    V4Decryptor.decrypt (fun b => b)
        ([7, 8, 86, 49, 8, 7, 20, 0, 0, 0, 5, 0, 0, 0, 0]
          ++ AesHandler.ecbBlocks (fun b => b)
              (List.replicate 20 1 ++ List.replicate 12 12)
          ++ V3Decryptor.xor_decrypt [200, 201, 202, 203, 204] 9)
        9 (List.replicate 16 7)
      = DResult.ok (List.replicate 20 1 ++ [200, 201, 202, 203, 204]) :=
  v4_roundtrip_20_5 (fun b => b) (fun b => b) 9 (List.replicate 16 7)
    (List.replicate 20 1) [200, 201, 202, 203, 204]
    (by decide) (by decide) (by decide) (fun _ _ => rfl) (fun _ h => h)

/-- Claim C6 (code bug): a truncated container file — valid signature,
header declaring `xor_region_size = 100`, but ending right after the AES
region — drives `file_len - current_pos - xor_size` below zero.  The
unchecked `u64` subtraction panics in a debug build and wraps in a release
build (where the subsequent huge `vec![0u8; raw_len]` allocation aborts), so
the call does not return a value, contradicting the spec's "never aborts". -/
theorem v4_truncated_container_panics :
    V4Decryptor.decrypt (fun b => b)
        ([7, 8, 86, 49, 8, 7, 0, 0, 0, 0, 100, 0, 0, 0, 0]
          ++ List.replicate 16 16)
        0 (List.replicate 16 0)
      = DResult.panic "attempt to subtract with overflow" := by decide

/-- Counterexample to C7 as stated: on a 6-byte file (shorter than the
15-byte header) `V4Decryptor::decrypt` fails with the `IoError` variant from
`read_exact`, not with `HeaderParseError`. -/
theorem v4_short_file_io_error_counterexample :
    V4Decryptor.decrypt (fun b => b) [7, 8, 86, 49, 8, 7] 0 (List.replicate 16 0)
        = DResult.err (DecryptError.IoError readExactEofMsg)
  ∧ V4Decryptor.decrypt (fun b => b) [7, 8, 86, 49, 8, 7] 0 (List.replicate 16 0)
        ≠ DResult.err DecryptError.HeaderParseError := by decide

/-- Claim C7 as amended: `decrypt` reads exactly 15 header bytes and fails
with an I/O error (not `HeaderParseError`) when fewer are available; the two
size fields are parsed as little-endian 32-bit integers at offsets 6 and 10;
`from_bytes` itself returns `HeaderParseError` only on inputs shorter than
15 bytes, which the decrypt path never supplies. -/
theorem v4_header_read_and_parse (decB : Bytes → Bytes) (file : Bytes)
    (xor_key : Nat) (aes_key : Bytes)
    (hkey : aes_key.length = 16) (hshort : file.length < 15) :
    V4Decryptor.decrypt decB file xor_key aes_key
      = DResult.err (DecryptError.IoError readExactEofMsg)
  ∧ (∀ bytes : Bytes, 15 ≤ bytes.length →
      V4Header.from_bytes bytes = Except.ok
        { signature := bytes.take 6
          aes_size := bytes.getD 6 0 + 256 * bytes.getD 7 0
            + 65536 * bytes.getD 8 0 + 16777216 * bytes.getD 9 0
          xor_size := bytes.getD 10 0 + 256 * bytes.getD 11 0
            + 65536 * bytes.getD 12 0 + 16777216 * bytes.getD 13 0 })
  ∧ (∀ bytes : Bytes, bytes.length < 15 →
      V4Header.from_bytes bytes = Except.error DecryptError.HeaderParseError) := by
  refine ⟨?_, ?_, ?_⟩
  · unfold V4Decryptor.decrypt V4Header.SIZE
    rw [if_neg (by simp [hkey]), if_pos (by omega)]
  · intro bytes hb
    unfold V4Header.from_bytes V4Header.SIZE V4Header.u32le
    rw [if_neg (by omega)]
  · intro bytes hb
    unfold V4Header.from_bytes V4Header.SIZE
    rw [if_pos (by omega)]

/-- Witness for the amended C7 on a 3-byte file. -/
theorem v4_header_read_and_parse_witness :
    (List.replicate 16 0 : Bytes).length = 16 ∧ ([1, 2, 3] : Bytes).length < 15
  ∧ V4Decryptor.decrypt (fun b => b) [1, 2, 3] 0 (List.replicate 16 0)
      = DResult.err (DecryptError.IoError readExactEofMsg) :=
  ⟨by decide, by decide,
    (v4_header_read_and_parse (fun b => b) [1, 2, 3] 0 (List.replicate 16 0)
      (by decide) (by decide)).1⟩

/-- Counterexample to C8 as stated: the missing-key failure and the
key-length failure are both reported through the same `AesDecryptError`
variant (they differ only in the message string), so the missing-key error
is not a discriminated kind distinct from the key-length failure. -/
theorem dat_missing_key_same_variant_counterexample :
    DatDecryptor.decrypt (fun b => b) [7, 8, 86, 49, 8, 7] 0 none
        = DResult.err (DecryptError.AesDecryptError "v4 版本需要提供 AES 密钥")
  ∧ DatDecryptor.decrypt (fun b => b) [7, 8, 86, 49, 8, 7] 0
        (some (List.replicate 15 0))
        = DResult.err (DecryptError.AesDecryptError "AES 密钥必须为 16 字节")
  ∧ (DecryptError.AesDecryptError "v4 版本需要提供 AES 密钥").isAesDecryptError
        = true
  ∧ (DecryptError.AesDecryptError "AES 密钥必须为 16 字节").isAesDecryptError
        = true := by decide

/-- Claim C8 as amended: the top-level dispatch XORs the whole file for
`LegacyXor`; for the two container variants it fails when no AES key is
supplied — with an `AesDecryptError` carrying a missing-key message, the
same variant used for key-length failures — and otherwise runs the v4
container decryptor; for the `Unknown` version it fails with
`UnsupportedVersion`. -/
theorem dat_dispatch_spec (decB : Bytes → Bytes) (file : Bytes) (xor_key : Nat)
    (aes_key : Option Bytes) :
    DatDecryptor.decrypt decB file xor_key aes_key
      = DatDecryptor.dispatch decB (VersionDetector.detect file) file xor_key aes_key
  ∧ DatDecryptor.dispatch decB DatVersion.V3 file xor_key aes_key
      = DResult.ok (V3Decryptor.xor_decrypt file xor_key)
  ∧ (∀ v : DatVersion, v = DatVersion.V4V1 ∨ v = DatVersion.V4V2 →
      DatDecryptor.dispatch decB v file xor_key none
        = DResult.err (DecryptError.AesDecryptError "v4 版本需要提供 AES 密钥")
      ∧ (∀ key : Bytes, DatDecryptor.dispatch decB v file xor_key (some key)
          = V4Decryptor.decrypt decB file xor_key key))
  ∧ (∀ key : Bytes, key.length ≠ 16 →
      V4Decryptor.decrypt decB file xor_key key
        = DResult.err (DecryptError.AesDecryptError "AES 密钥必须为 16 字节"))
  ∧ DatDecryptor.dispatch decB DatVersion.Unknown file xor_key aes_key
      = DResult.err DecryptError.UnsupportedVersion := by
  refine ⟨rfl, rfl, ?_, ?_, rfl⟩
  · rintro v (rfl | rfl)
    · exact ⟨rfl, fun key => rfl⟩
    · exact ⟨rfl, fun key => rfl⟩
  · intro key hk
    unfold V4Decryptor.decrypt
    rw [if_pos hk]

/-- Witness for the amended C8: the fixed-key container variant with no AES
key supplied yields the missing-key `AesDecryptError`. -/
theorem dat_dispatch_spec_witness :
    (DatVersion.V4V1 = DatVersion.V4V1 ∨ DatVersion.V4V1 = DatVersion.V4V2)
  ∧ DatDecryptor.dispatch (fun b => b) DatVersion.V4V1 [] 0 none
      = DResult.err (DecryptError.AesDecryptError "v4 版本需要提供 AES 密钥") :=
  ⟨Or.inl rfl,
    ((dat_dispatch_spec (fun b => b) [] 0 none).2.2.1 DatVersion.V4V1 (Or.inl rfl)).1⟩

/-- Counterexample to C10's final clause: two 17-byte inputs with the same
single undecrypted trailing byte (2) and the same key differ in outcome,
because a padding length larger than `len mod 16` makes the validation read
decrypted block bytes as well — success is not determined by the trailing
bytes alone. -/
theorem decrypt_ecb_trailing_not_sole_determinant :
    ((List.replicate 15 0 ++ [2] ++ [2] : Bytes)).length % 16 = 1
  ∧ ((List.replicate 16 0 ++ [2] : Bytes)).length % 16 = 1
  ∧ (List.replicate 15 0 ++ [2] ++ [2] : Bytes).drop 16 = [2]
  ∧ (List.replicate 16 0 ++ [2] : Bytes).drop 16 = [2]
  ∧ AesHandler.decrypt_ecb (fun b => b) (List.replicate 15 0 ++ [2] ++ [2])
        (List.replicate 16 0)
      = Except.ok (List.replicate 15 0)
  ∧ AesHandler.decrypt_ecb (fun b => b) (List.replicate 16 0 ++ [2])
        (List.replicate 16 0)
      = Except.error (DecryptError.AesDecryptError "填充验证失败") := by decide
